import Mathlib

unseal Rat.add Rat.mul Rat.inv Rat.sub

/-!
Verification of the color parsing and gradient-interpolation module of the
rainfed-agriculture repository (`rainfall/color.py`).

The Python module is shallowly embedded here:

* Python strings are modelled as `List Char`.
* Python floats are modelled as `ℚ`; the special value NaN, which only
  matters for `gradient`'s scalar argument (`numpy.isnan`), is modelled by
  the wrapper type `FloatVal`.
* Python exceptions are modelled by the error type `PyErr`, distinguishing
  the module's own `ValueError('...: invalid color')` (`invalidColor`) from
  the interpreter-raised conversion `ValueError` (`valueError`),
  `IndexError` and `ZeroDivisionError`.
* Fallible Python functions become `Except PyErr`-valued Lean functions.

Every definition in the `Rainfall` namespace is translated directly from
`rainfall/color.py` (or, for `hsv_to_rgb`, from CPython's `colorsys`
module which it calls); spec-side definitions used for refinement theorems
are suffixed `Spec` or `Claim` and are written from the specification's
words instead.
-/

/-- Decidable equality for `Except`, so that concrete runs of the embedded
functions can be checked by `decide`. -/
instance exceptDecEq {ε α : Type} [DecidableEq ε] [DecidableEq α] :
    DecidableEq (Except ε α) := fun x y =>
  match x, y with
  | .ok a, .ok b =>
    if h : a = b then isTrue (by rw [h]) else isFalse (by simp [h])
  | .error a, .error b =>
    if h : a = b then isTrue (by rw [h]) else isFalse (by simp [h])
  | .ok _, .error _ => isFalse (by simp)
  | .error _, .ok _ => isFalse (by simp)

namespace Rainfall

/-- Python strings are modelled as lists of characters. -/
abbrev Str := List Char

/-- Python exceptions relevant to `color.py`, keeping the module's own
`ValueError('%s: invalid color')` distinct from interpreter-raised errors. -/
inductive PyErr where
  | invalidColor (s : Str)
  | valueError
  | indexError
  | zeroDivisionError
deriving DecidableEq, Repr

/-- The normalized color value: an (R, G, B, A) tuple of rationals. -/
abbrev Color := ℚ × ℚ × ℚ × ℚ

/-- The clamping step `0 if v < 0 else 1 if v > 1 else v` used by both
`rgba` and `name`. -/
def clamp01 (v : ℚ) : ℚ := if v < 0 then 0 else if v > 1 then 1 else v

/-- Python `int()` applied to a float truncates toward zero. -/
def truncInt (q : ℚ) : ℤ := if q < 0 then -((-q).floor) else q.floor

/-- Python `% 1` on a (float) number: the result is the fractional part,
nonnegative because the divisor 1 is positive. -/
def pyMod1 (q : ℚ) : ℚ := q - q.floor

/-- The character class of the numeric-token scan `re.findall(r'[0-9\.%]+', ...)`
used by `rgba` for the functional rgb()/hsl() grammars. -/
def isNumTokChar (c : Char) : Bool := c.isDigit || c = '.' || c = '%'

/-- Character-by-character scan behind `findTokens`: `acc` holds the
(reversed) run of numeric-token characters currently being read. -/
def tokAcc : Str → Str → List Str
  | acc, [] => if acc = [] then [] else [acc.reverse]
  | acc, c :: cs =>
    if isNumTokChar c then tokAcc (c :: acc) cs
    else if acc = [] then tokAcc [] cs else acc.reverse :: tokAcc [] cs

/-- `re.findall(r'[0-9\.%]+', s)`: the maximal runs of digits, dots and
percent signs occurring in `s`, in order. -/
def findTokens (s : Str) : List Str := tokAcc [] s

/-- Value of a string of decimal digit characters, read left to right. -/
def digitsVal (ds : Str) : ℚ := ds.foldl (fun acc c => acc * 10 + (c.toNat - 48 : ℕ)) 0

/-- Python `float()` restricted to the token alphabet that the numeric scan
can produce (digits, dots and percent signs): the string parses iff it
contains no percent sign, at most one dot, and at least one digit.
Returns `none` where Python raises `ValueError`. -/
def pyFloatNum (s : Str) : Option ℚ :=
  let ip := s.takeWhile Char.isDigit
  let rest := s.drop ip.length
  match rest with
  | [] => if ip = [] then none else some (digitsVal ip)
  | '.' :: fp =>
    if fp.all Char.isDigit && (decide (ip ≠ []) || decide (fp ≠ [])) then
      some (digitsVal ip + digitsVal fp / 10 ^ fp.length)
    else none
  | _ => none

/-- Numeric value of one hexadecimal digit character (both cases), `none`
for any other character. -/
def hexVal (c : Char) : Option ℕ :=
  if c.isDigit then some (c.toNat - 48)
  else if 'a' ≤ c && c ≤ 'f' then some (c.toNat - 87)
  else if 'A' ≤ c && c ≤ 'F' then some (c.toNat - 55)
  else none

/-- Digits-with-underscores tail of Python's base-16 integer grammar:
after an accepted first digit, each further digit may be preceded by a
single underscore. -/
def hexTail (acc : ℕ) : Str → Option ℕ
  | [] => some acc
  | '_' :: c :: cs =>
    match hexVal c with
    | some d => hexTail (16 * acc + d) cs
    | none => none
  | ['_'] => none
  | c :: cs =>
    match hexVal c with
    | some d => hexTail (16 * acc + d) cs
    | none => none

/-- Python `int(s, 16)` (ASCII subset): optional surrounding whitespace,
optional sign, optional `0x`/`0X` prefix (which may be followed by one
underscore), then hex digits with single underscores between digits.
Returns `none` where Python raises `ValueError`. -/
def pyIntHex (s : Str) : Option ℤ :=
  let t := ((s.dropWhile Char.isWhitespace).reverse.dropWhile Char.isWhitespace).reverse
  let (sign, t2) : ℤ × Str :=
    match t with
    | '+' :: r => (1, r)
    | '-' :: r => (-1, r)
    | r => (1, r)
  let t3 : Str :=
    match t2 with
    | '0' :: 'x' :: r => match r with | '_' :: r2 => r2 | _ => r
    | '0' :: 'X' :: r => match r with | '_' :: r2 => r2 | _ => r
    | r => r
  match t3 with
  | [] => none
  | c :: cs =>
    match hexVal c with
    | some d => (hexTail d cs).map (fun n => sign * n)
    | none => none

/-- CPython `colorsys.hsv_to_rgb`, verbatim: `int()` truncates toward zero
and Python's `%` on integers matches `Int.emod`. -/
def hsv_to_rgb (h s v : ℚ) : ℚ × ℚ × ℚ :=
  if s = 0 then (v, v, v)
  else
    let i : ℤ := truncInt (h * 6)
    let f : ℚ := h * 6 - i
    let p := v * (1 - s)
    let q := v * (1 - s * f)
    let t := v * (1 - s * (1 - f))
    let i := i % 6
    if i = 0 then (v, t, p)
    else if i = 1 then (q, v, p)
    else if i = 2 then (p, v, t)
    else if i = 3 then (p, q, v)
    else if i = 4 then (t, p, v)
    else (v, p, q)

/-- The 16-entry `_colornames` table; values are the raw 0–255 integers the
source stores (they are clamped, not divided by 255, by `rgba`). -/
def colornames : List (Str × (ℚ × ℚ × ℚ)) :=
  [ ("black".data, (0, 0, 0)), ("silver".data, (192, 192, 192)),
    ("gray".data, (128, 128, 128)), ("white".data, (255, 255, 255)),
    ("maroon".data, (128, 0, 0)), ("red".data, (255, 0, 0)),
    ("purple".data, (128, 0, 128)), ("fuchsia".data, (255, 0, 255)),
    ("green".data, (0, 128, 0)), ("lime".data, (0, 255, 0)),
    ("olive".data, (128, 128, 0)), ("yellow".data, (255, 255, 0)),
    ("navy".data, (0, 0, 128)), ("blue".data, (0, 0, 255)),
    ("teal".data, (0, 128, 128)), ("aqua".data, (0, 255, 255)) ]

/-- `color.split('(')[1]`: the segment strictly between the first `(` and
the following `(` or end of string (the callers guarantee a `(` exists). -/
def afterParen (s : Str) : Str := ((s.dropWhile (· ≠ '(')).drop 1).takeWhile (· ≠ '(')

/-- The token loop of the `rgb(`/`rgba(` branch of `rgba`: percent tokens
become value/100, the first three plain tokens value/255, a plain fourth
token a literal float.  A malformed token raises `ValueError`. -/
def rgbTokLoop (i : ℕ) : List Str → Except PyErr (List ℚ)
  | [] => .ok []
  | t :: ts =>
    let v? : Option ℚ :=
      if t.getLast? = some '%' then (pyFloatNum t.dropLast).map (· / 100)
      else if i < 3 then (pyFloatNum t).map (· / 255)
      else pyFloatNum t
    match v? with
    | none => .error .valueError
    | some v => (rgbTokLoop (i + 1) ts).map (v :: ·)

/-- The token loop of the `hsl(`/`hsla(` branch of `rgba`: percent tokens
become value/100 (this check comes first, also for the hue token), a plain
first token value/360 mod 1, other plain tokens literal floats. -/
def hslTokLoop (i : ℕ) : List Str → Except PyErr (List ℚ)
  | [] => .ok []
  | t :: ts =>
    let v? : Option ℚ :=
      if t.getLast? = some '%' then (pyFloatNum t.dropLast).map (· / 100)
      else if i = 0 then (pyFloatNum t).map (fun x => pyMod1 (x / 360))
      else pyFloatNum t
    match v? with
    | none => .error .valueError
    | some v => (hslTokLoop (i + 1) ts).map (v :: ·)

/-- The triple assignment
`result[0], result[1], result[2] = colorsys.hsv_to_rgb(result[0], result[1], result[2])`
of the hsl branch: it raises `IndexError` when fewer than three
components were scanned, and otherwise replaces the first three. -/
def hslFix : Except PyErr (List ℚ) → Except PyErr (List ℚ)
  | .error e => .error e
  | .ok (h :: s :: v :: rest) =>
    let (r, g, b) := hsv_to_rgb h s v
    .ok (r :: g :: b :: rest)
  | .ok _ => .error .indexError

/-- The `result` list built by the branch chain of `rgba` before the final
length checks. -/
def rgbaResult (color : Str) : Except PyErr (List ℚ) :=
  if color.head? = some '#' then
    if color.length = 7 then
      match pyIntHex ((color.drop 1).take 2), pyIntHex ((color.drop 3).take 2),
            pyIntHex ((color.drop 5).take 2) with
      | some r, some g, some b => .ok [(r : ℚ) / 255, (g : ℚ) / 255, (b : ℚ) / 255]
      | _, _, _ => .error .valueError
    else if color.length = 4 then
      match pyIntHex ((color.drop 1).take 1), pyIntHex ((color.drop 2).take 1),
            pyIntHex ((color.drop 3).take 1) with
      | some r, some g, some b => .ok [(r : ℚ) / 15, (g : ℚ) / 15, (b : ℚ) / 15]
      | _, _, _ => .error .valueError
    else .ok []
  else if List.isPrefixOf "rgb(".data color || List.isPrefixOf "rgba(".data color then
    rgbTokLoop 0 (findTokens (afterParen color))
  else if List.isPrefixOf "hsl(".data color || List.isPrefixOf "hsla(".data color then
    hslFix (hslTokLoop 0 (findTokens (afterParen color)))
  else
    match colornames.lookup color with
    | some (r, g, b) => .ok [r, g, b]
    | none => .ok []

/-- The tail of `rgba`: append a default alpha to a 3-component result,
clamp a 4-component result to `[0,1]`, and raise the module's own
`ValueError('%s: invalid color')` for any other component count. -/
def finalize (color : Str) (l : List ℚ) : Except PyErr Color :=
  match (if l.length = 3 then l ++ [1] else l) with
  | [a, b, c, d] => .ok (clamp01 a, clamp01 b, clamp01 c, clamp01 d)
  | _ => .error (.invalidColor color)

/-- `rgba(color)` from `color.py`: parse a CSS-style color literal into a
normalized rgba tuple. -/
def rgba (color : Str) : Except PyErr Color :=
  match rgbaResult color with
  | .error e => .error e
  | .ok result => finalize color result

/-- Lowercase hexadecimal digit character for a value below 16, as printed
by Python's `'%02x'` format. -/
def hexChr (n : ℕ) : Char := if n < 10 then Char.ofNat (48 + n) else Char.ofNat (87 + n)

/-- Two-digit lowercase hex rendering of a byte (`'%02x' % n` for `0 ≤ n ≤ 255`). -/
def hex2 (n : ℕ) : Str := [hexChr (n / 16), hexChr (n % 16)]

/-- The byte written for a clamped channel: `255 * component` truncated to
an integer, as Python 2's `'%02x'` formatting of a float does. -/
def py255 (r : ℚ) : ℕ := (truncInt (255 * r)).toNat

/-- `re.sub(r'#(\w)\1(\w)\2(\w)\3', r'#\1\2\3', s)` on the 7-character
`#rrggbb` strings `name` produces: collapse to `#rgb` exactly when each of
the three digit pairs repeats one digit. -/
def collapseHex (s : Str) : Str :=
  match s with
  | ['#', a, b, c, d, e, f] =>
    if a = b ∧ c = d ∧ e = f then ['#', a, c, e] else s
  | _ => s

/-- Round-half-to-even of a rational to an integer, the rounding Python's
`'%0.2f'` applies (ignoring binary-float representation error, which the
claims never exercise). -/
def roundHalfEven (q : ℚ) : ℤ :=
  let fl := q.floor
  let fr := q - fl
  if fr < 1 / 2 then fl else if fr > 1 / 2 then fl + 1
  else if fl % 2 = 0 then fl else fl + 1

/-- `'%0.2f' % a` for the clamped alphas `0 ≤ a < 1` that reach it. -/
def fmt2dec (a : ℚ) : Str :=
  let n := roundHalfEven (a * 100)
  let ip := n / 100
  let fp := (n % 100).toNat
  (toString ip).data ++ '.' :: [Char.ofNat (48 + fp / 10), Char.ofNat (48 + fp % 10)]

/-- `name(r, g, b, a=1)` from `color.py`: clamp, then either a (possibly
collapsed) `#`-hex string when alpha clamps to 1, or an `rgba(...)` string. -/
def name (r g b : ℚ) (a : ℚ := 1) : Str :=
  let r := clamp01 r
  let g := clamp01 g
  let b := clamp01 b
  let a := clamp01 a
  if a ≥ 1 then
    collapseHex ('#' :: (hex2 (py255 r) ++ hex2 (py255 g) ++ hex2 (py255 b)))
  else
    "rgba(".data ++ (toString (truncInt (255 * r))).data ++ ',' ::
      ((toString (truncInt (255 * g))).data ++ ',' ::
        ((toString (truncInt (255 * b))).data ++ ',' :: (fmt2dec a ++ [')'])))

/-- A Python float scalar fed to `gradient`: either NaN or a number
(`numpy.isnan` is the only operation that distinguishes them). -/
inductive FloatVal where
  | nan
  | num (q : ℚ)

/-- `x = float(x) if not numpy.isnan(x) else 0` at the top of `gradient`. -/
def FloatVal.toQ : FloatVal → ℚ
  | .nan => 0
  | .num q => q

/-- Insert a stop after every already-placed stop of smaller or equal
position (helper for the stable sort below). -/
def insStop (a : ℚ × Str) : List (ℚ × Str) → List (ℚ × Str)
  | [] => [a]
  | b :: l => if b.1 ≤ a.1 then b :: insStop a l else a :: b :: l

/-- `sorted(ranges, key=operator.itemgetter(0))`: stable ascending sort on
the stop positions.  A stable sort's output is uniquely determined, so
this left-to-right insertion sort computes exactly what Python's stable
`sorted` returns. -/
def sortRanges (ranges : List (ℚ × Str)) : List (ℚ × Str) :=
  ranges.foldl (fun acc a => insStop a acc) []

/-- Python sequence indexing `l[j]` with negative-index wrapping and
`IndexError` out of range. -/
def pyGet {α : Type} (l : List α) (j : ℤ) : Except PyErr α :=
  let j2 := if j < 0 then j + l.length else j
  if 0 ≤ j2 then
    if h : j2.toNat < l.length then .ok (l.get ⟨j2.toNat, h⟩)
    else .error .indexError
  else .error .indexError

/-- `gradient(x, ranges)` from `color.py`, for a scalar `x` (the
`numpy.ndim(x) > 0` branch merely maps the scalar case over an array and
is outside every claim).  NaN is replaced by 0, the stops are sorted, the
two boundary checks return a stop's literal unchanged, and otherwise the
first stop at position ≥ x is blended with its predecessor. -/
def gradient (x : FloatVal) (ranges : List (ℚ × Str)) : Except PyErr Str :=
  let xq := x.toQ
  match sortRanges ranges with
  | [] => .error .indexError
  | first :: rest =>
    let s := first :: rest
    if xq ≤ first.1 then .ok first.2
    else if xq ≥ (s.getLastD first).1 then .ok (s.getLastD first).2
    else
      let i : ℕ :=
        match s.findIdx? (fun r => xq ≤ r.1) with
        | some i => i
        | none => s.length - 1
      match pyGet s (Int.ofNat i - 1), pyGet s (Int.ofNat i) with
      | .ok prev, .ok cur =>
        if cur.1 - prev.1 = 0 then .error .zeroDivisionError
        else
          let p := (xq - prev.1) / (cur.1 - prev.1)
          let q := 1 - p
          match rgba prev.2, rgba cur.2 with
          | .ok a, .ok b =>
            .ok (name (a.1 * q + b.1 * p) (a.2.1 * q + b.2.1 * p) (a.2.2.1 * q + b.2.2.1 * p))
          | .error e, _ => .error e
          | _, .error e => .error e
      | .error e, _ => .error e
      | _, .error e => .error e

/-- The `_distincts` table of 20 hex colors. -/
def distincts : List Str :=
  [ "#1f77b4".data, "#aec7e8".data, "#ff7f0e".data, "#ffbb78".data,
    "#2ca02c".data, "#98df8a".data, "#d62728".data, "#ff9896".data,
    "#9467bd".data, "#c5b0d5".data, "#8c564b".data, "#c49c94".data,
    "#e377c2".data, "#f7b6d2".data, "#7f7f7f".data, "#c7c7c7".data,
    "#bcbd22".data, "#dbdb8d".data, "#17becf".data, "#9edae5".data ]

/-- `distinct(n)` from `color.py`: every second entry for `n ≤ 10`, a
prefix for `n ≤ 20`, the whole table beyond. -/
def distinct (n : ℤ) : List Str :=
  if n ≤ 10 then (List.range n.toNat).map (fun i => distincts.getD (2 * i) [])
  else if n ≤ 20 then distincts.take n.toNat
  else distincts

/-! Helper lemmas about the gradient scan. -/

theorem clamp01_eq_self {v : ℚ} (h0 : 0 ≤ v) (h1 : v ≤ 1) : clamp01 v = v := by
  unfold clamp01
  rw [if_neg (not_lt.mpr h0), if_neg (not_lt.mpr h1)]

theorem clamp01_nonneg (v : ℚ) : 0 ≤ clamp01 v := by
  unfold clamp01
  split_ifs with h1 h2
  · exact le_refl 0
  · exact zero_le_one
  · exact le_of_not_lt h1

theorem clamp01_le_one (v : ℚ) : clamp01 v ≤ 1 := by
  unfold clamp01
  split_ifs with h1 h2
  · exact zero_le_one
  · exact le_refl 1
  · exact le_of_not_lt h2

/-- A Microsoft-Office theme palette: the `_MSO` class holds an ordered
tuple of hex color strings. -/
structure MSO where
  values : List Str

/-- The `_MSO._lookup` table of semantic slot names. -/
def msoLookup : List (Str × ℕ) :=
  [ ("accent_1".data, 0), ("accent_2".data, 1), ("accent_3".data, 2),
    ("accent_4".data, 3), ("accent_5".data, 4), ("accent_6".data, 5),
    ("light_2".data, 6), ("dark_2".data, 7),
    ("light_1".data, 8), ("dark_1".data, 9) ]

/-- A key passed to `_MSO.__getitem__`: an integer, a slice (with Python's
optional fields), or a string name. -/
inductive MKey where
  | idx (i : ℤ)
  | slc (start stop step : Option ℤ)
  | name (s : Str)

/-- What a `_MSO.__getitem__` call produces: one color, a list of colors
(for slices), Python's implicit `None` fall-through, or a raised error. -/
inductive MRes where
  | val (c : Str)
  | vals (cs : List Str)
  | nothing
  | err (e : PyErr)
deriving DecidableEq

/-- The index walk of CPython tuple slicing: starting from `cur`, step by
`step` while inside the `stop` bound.  The fuel is the tuple length, an
upper bound on the number of produced indices. -/
def sliceIdx : ℕ → ℤ → ℤ → ℤ → List ℤ
  | 0, _, _, _ => []
  | fuel + 1, cur, stop, step =>
    if (0 < step ∧ cur < stop) ∨ (step < 0 ∧ stop < cur) then
      cur :: sliceIdx fuel (cur + step) stop step
    else []

/-- CPython `PySlice_AdjustIndices` normalization of one slice endpoint. -/
def adjustIdx (n step : ℤ) (v : ℤ) : ℤ :=
  if v < 0 then
    if v + n < 0 then (if step < 0 then -1 else 0) else v + n
  else if v ≥ n then (if step < 0 then n - 1 else n) else v

/-- CPython tuple slicing `l[start:stop:step]` (a zero step raises
`ValueError`). -/
def pySlice {α : Type} (l : List α) (dflt : α) (start stop step : Option ℤ) :
    Except PyErr (List α) :=
  let n : ℤ := l.length
  let st := step.getD 1
  if st = 0 then .error .valueError
  else
    let b := adjustIdx n st (start.getD (if st < 0 then n - 1 else 0))
    let e :=
      match stop with
      | Option.none => if st < 0 then -1 else n
      | some v => adjustIdx n st v
    .ok ((sliceIdx l.length b e st).map (fun i => l.getD i.toNat dflt))

/-- `_MSO.__getitem__`: slices and integers index the values tuple
directly (an out-of-range integer therefore raises `IndexError`),
recognized slot names go through `_lookup`, and anything else falls
through to Python's implicit `return None`. -/
def MSO.getitem (m : MSO) : MKey → MRes
  | .idx i =>
    match pyGet m.values i with
    | .ok v => .val v
    | .error e => .err e
  | .slc start stop step =>
    match pySlice m.values [] start stop step with
    | .ok l => .vals l
    | .error e => .err e
  | .name s =>
    match msoLookup.lookup s with
    | some k =>
      match pyGet m.values (Int.ofNat k) with
      | .ok v => .val v
      | .error e => .err e
    | Option.none => .nothing

/-- The `Office` theme palette constant. -/
def Office : MSO :=
  ⟨[ "#4f81bd".data, "#c0504d".data, "#9bbb59".data, "#8064a2".data,
     "#4bacc6".data, "#f79646".data, "#eeece1".data, "#1f497d".data,
     "#ffffff".data, "#000000".data ]⟩

/-! Claim theorems. -/

/-- C9: a gradient of exactly one stop returns that stop's color literal
unchanged for every scalar input, NaN (treated as 0) included; the
interpolation branch is never reached because one of the two boundary
checks always fires when the first and last stop coincide. -/
theorem C9_singleton_gradient (p : ℚ) (c : Str) (x : FloatVal) :
    gradient x [(p, c)] = .ok c := by
  have hs : sortRanges [(p, c)] = [(p, c)] := rfl
  simp only [gradient, hs]
  by_cases h1 : x.toQ ≤ p
  · simp [h1]
  · have h2 : x.toQ ≥ p := le_of_lt (lt_of_not_le h1)
    simp [h1, h2, List.getLastD]

/-- C2: after sorting, an input at or below the first stop's position
returns the first stop's color literal unchanged, and otherwise an input
at or above the last stop's position returns the last stop's color
literal unchanged (the two checks are made in this order, as in the
source). -/
theorem C2_gradient_boundaries (ranges : List (ℚ × Str)) (x : ℚ)
    (first lst : ℚ × Str)
    (hf : (sortRanges ranges).head? = some first)
    (hl : (sortRanges ranges).getLast? = some lst) :
    (x ≤ first.1 → gradient (.num x) ranges = .ok first.2) ∧
    (first.1 < x → lst.1 ≤ x → gradient (.num x) ranges = .ok lst.2) := by
  cases hs : sortRanges ranges with
  | nil => rw [hs] at hf; exact absurd hf (by simp)
  | cons f r =>
    rw [hs] at hf hl
    have hffirst : f = first := by simpa using hf
    subst hffirst
    have hlast : (f :: r).getLastD f = lst := by
      rw [List.getLastD_eq_getLast?, hl]
      rfl
    constructor
    · intro hx
      simp only [gradient, hs, FloatVal.toQ]
      rw [if_pos hx]
    · intro hgt hge
      simp only [gradient, hs, FloatVal.toQ]
      rw [if_neg (not_le.mpr hgt), hlast, if_pos hge]

/-- C2 witness: the spec's boundary-law gradient, evaluated at both ends. -/
theorem C2_gradient_boundaries_witness :
    gradient (.num (-2)) [(-1, "#ff0000".data), (0, "#ffffff".data), (1, "#00ff00".data)]
      = .ok "#ff0000".data ∧
    gradient (.num 2) [(-1, "#ff0000".data), (0, "#ffffff".data), (1, "#00ff00".data)]
      = .ok "#00ff00".data := by
  constructor
  · exact (C2_gradient_boundaries _ (-2) (-1, "#ff0000".data) (1, "#00ff00".data)
      (by decide) (by decide)).1 (by norm_num)
  · exact (C2_gradient_boundaries _ 2 (-1, "#ff0000".data) (1, "#00ff00".data)
      (by decide) (by decide)).2 (by norm_num) (by norm_num)

/-- C7: `distinct(n)` returns exactly `min n 20` colors for nonnegative
`n`: the even-index entries of the 20-entry table for `n ≤ 10`, the first
`n` entries verbatim for `10 < n ≤ 20`, and the whole table for `n > 20`. -/
theorem C7_distinct_palette (n : ℤ) (hn : 0 ≤ n) :
    (distinct n).length = min n.toNat 20 ∧
    (n ≤ 10 → ∀ i, i < (distinct n).length → (distinct n).getD i [] = distincts.getD (2 * i) []) ∧
    (10 < n → n ≤ 20 → distinct n = distincts.take n.toNat) ∧
    (20 < n → distinct n = distincts) := by
  have hdlen : distincts.length = 20 := by decide
  refine ⟨?_, ?_, ?_, ?_⟩
  · by_cases h10 : n ≤ 10
    · have : distinct n = (List.range n.toNat).map (fun i => distincts.getD (2 * i) []) := by
        unfold distinct
        rw [if_pos h10]
      rw [this, List.length_map, List.length_range]
      omega
    · by_cases h20 : n ≤ 20
      · have : distinct n = distincts.take n.toNat := by
          unfold distinct
          rw [if_neg h10, if_pos h20]
        rw [this, List.length_take, hdlen]
      · have : distinct n = distincts := by
          unfold distinct
          rw [if_neg h10, if_neg h20]
        rw [this, hdlen]
        omega
  · intro h10 i hi
    have hd : distinct n = (List.range n.toNat).map (fun i => distincts.getD (2 * i) []) := by
      unfold distinct
      rw [if_pos h10]
    rw [hd] at hi ⊢
    rw [List.length_map, List.length_range] at hi
    rw [List.getD_eq_getElem _ _ (by simpa using hi)]
    simp
  · intro h10 h20
    unfold distinct
    rw [if_neg (by omega), if_pos h20]
  · intro h20
    unfold distinct
    rw [if_neg (by omega), if_neg (by omega)]

/-- C7 witness: `distinct` applied at 7. -/
theorem C7_distinct_palette_witness :
    (0 : ℤ) ≤ 7 ∧
    ((distinct 7).length = min (7 : ℤ).toNat 20 ∧
     ((7 : ℤ) ≤ 10 → ∀ i, i < (distinct 7).length →
       (distinct 7).getD i [] = distincts.getD (2 * i) []) ∧
     (10 < (7 : ℤ) → (7 : ℤ) ≤ 20 → distinct 7 = distincts.take (7 : ℤ).toNat) ∧
     (20 < (7 : ℤ) → distinct 7 = distincts)) :=
  ⟨by decide, C7_distinct_palette 7 (by decide)⟩

/-! The numeric-token scan only ever emits digits, dots and percent signs
(claim C10). -/

theorem tokAcc_chars (s : Str) : ∀ (acc : Str),
    (∀ c ∈ acc, isNumTokChar c = true) →
    ∀ t ∈ tokAcc acc s, ∀ c ∈ t, isNumTokChar c = true := by
  induction s with
  | nil =>
    intro acc hacc t ht c hc
    by_cases h : acc = []
    · subst h
      simp [tokAcc] at ht
    · rw [tokAcc, if_neg h] at ht
      rcases List.mem_singleton.mp ht with rfl
      exact hacc c (List.mem_reverse.mp hc)
  | cons ch cs ih =>
    intro acc hacc t ht c hc
    by_cases h : isNumTokChar ch
    · rw [tokAcc, if_pos h] at ht
      refine ih (ch :: acc) ?_ t ht c hc
      intro d hd
      rcases List.mem_cons.mp hd with rfl | hd2
      · exact h
      · exact hacc d hd2
    · rw [tokAcc, if_neg h] at ht
      by_cases he : acc = []
      · rw [if_pos he] at ht
        exact ih [] (by simp) t ht c hc
      · rw [if_neg he] at ht
        rcases List.mem_cons.mp ht with rfl | ht2
        · exact hacc c (List.mem_reverse.mp hc)
        · exact ih [] (by simp) t ht2 c hc

/-- C10: the numeric-token scan of the functional grammars matches only
digits, dots and percent signs, so a minus sign is silently skipped and a
negative component is read as its unsigned digits; in particular
`rgba("rgb(-255, 0, 0)")` equals `rgba("rgb(255, 0, 0)")`, namely
`(1, 0, 0, 1)`. -/
theorem C10_minus_sign_skipped :
    rgba "rgb(-255, 0, 0)".data = rgba "rgb(255, 0, 0)".data ∧
    rgba "rgb(-255, 0, 0)".data = .ok (1, 0, 0, 1) ∧
    (∀ (s : Str), ∀ t ∈ findTokens s, ∀ c ∈ t, c ≠ '-' ∧ isNumTokChar c = true) := by
  refine ⟨by decide, by decide, ?_⟩
  intro s t ht c hc
  have h := tokAcc_chars s [] (by simp) t ht c hc
  refine ⟨?_, h⟩
  intro hdc
  subst hdc
  simp [isNumTokChar] at h

/-- C10 witness: the scan of the argument segment of `rgb(-255, 0, 0)`
emits the token `255`, whose characters are all in the numeric class. -/
theorem C10_minus_sign_skipped_witness :
    ("255".data ∈ findTokens "-255, 0, 0".data) ∧
    ('2' ≠ '-' ∧ isNumTokChar '2' = true) :=
  ⟨by decide,
    C10_minus_sign_skipped.2.2 "-255, 0, 0".data "255".data (by decide) '2' (by decide)⟩

/-! Formatting (claims C5 and C6). -/

theorem clamp01_of_one_le {a : ℚ} (ha : 1 ≤ a) : clamp01 a = 1 := by
  unfold clamp01
  rw [if_neg (not_lt.mpr (le_trans zero_le_one ha))]
  by_cases h : a > 1
  · rw [if_pos h]
  · rw [if_neg h]
    exact le_antisymm (not_lt.mp h) ha

theorem ratFloor_eq_floor (q : ℚ) : Rat.floor q = ⌊q⌋ := rfl

/-- The formatted byte of a channel value in `[0,1]` is below 256. -/
theorem py255_lt_256 {r : ℚ} (h0 : 0 ≤ r) (h1 : r ≤ 1) : py255 r < 256 := by
  unfold py255 truncInt
  rw [if_neg (not_lt.mpr (by positivity)), ratFloor_eq_floor]
  have h255 : (255 : ℚ) * r ≤ 255 := by nlinarith
  have h2 : ((⌊(255 : ℚ) * r⌋ : ℚ)) ≤ 255 := le_trans (Int.floor_le _) h255
  have h3 : ⌊(255 : ℚ) * r⌋ ≤ 255 := by exact_mod_cast h2
  omega

set_option maxRecDepth 4000 in
/-- A byte collapses in the `#rgb` shorthand iff its two hex digits are
equal iff it is a multiple of 17. -/
theorem hexPair_eq_iff (R : ℕ) (h : R < 256) :
    hexChr (R / 16) = hexChr (R % 16) ↔ R % 17 = 0 := by
  revert h
  revert R
  decide

set_option maxRecDepth 4000 in
theorem hexDiv_of_mul17 (R : ℕ) (h : R < 256) (h17 : R % 17 = 0) :
    R / 16 = R / 17 := by
  revert h17
  revert h
  revert R
  decide

/-- Spec-side formatting function, following the amended claim C5: emit
the six hex digits of the truncated bytes `int(255*component)` and
collapse to the 3-digit shorthand exactly when every byte consists of two
equal hex digits, i.e. is a multiple of 17 (so `#ff0000` does collapse,
to `#f00`). -/
def nameSpec (r g b : ℚ) : Str :=
  let R := py255 r
  let G := py255 g
  let B := py255 b
  if R % 17 = 0 ∧ G % 17 = 0 ∧ B % 17 = 0 then
    ['#', hexChr (R / 17), hexChr (G / 17), hexChr (B / 17)]
  else
    '#' :: (hex2 R ++ hex2 G ++ hex2 B)

/-- C5 counterexample: the claim predicts `Format(1,0,0) = "#ff0000"`
("not collapsible"), but the code collapses `#ff0000` to `#f00` because
each of the pairs `ff`, `00`, `00` repeats a single digit. -/
theorem C5_format_counterexample :
    name 1 0 0 = "#f00".data ∧ name 1 0 0 ≠ "#ff0000".data := by
  constructor
  · decide
  · decide

/-- C5 (amended): for channels in `[0,1]` and alpha ≥ 1, `Format` emits
the 6-hex-digit string of the truncated bytes `int(255*component)` and
collapses it to the 3-digit shorthand whenever every byte pair repeats a
single digit — including `#ff0000`, which collapses to `#f00`; the spec's
other examples `Format(1,1,0) = "#ff0"`, `Format(-1,1,0) = "#0f0"` and
`#ff0011 → #f01` hold as stated. -/
theorem C5_format_amended :
    (∀ r g b a : ℚ, 0 ≤ r → r ≤ 1 → 0 ≤ g → g ≤ 1 → 0 ≤ b → b ≤ 1 → 1 ≤ a →
      name r g b a = nameSpec r g b) ∧
    name 1 0 0 = "#f00".data ∧
    name 1 1 0 = "#ff0".data ∧
    name (-1) 1 0 = "#0f0".data ∧
    name 1 0 (17 / 255) = "#f01".data := by
  refine ⟨?_, by decide, by decide, by decide, by decide⟩
  intro r g b a h0r h1r h0g h1g h0b h1b ha
  have hRlt := py255_lt_256 h0r h1r
  have hGlt := py255_lt_256 h0g h1g
  have hBlt := py255_lt_256 h0b h1b
  simp only [name, nameSpec, clamp01_eq_self h0r h1r, clamp01_eq_self h0g h1g,
    clamp01_eq_self h0b h1b, clamp01_of_one_le ha, if_pos (le_refl (1 : ℚ))]
  show collapseHex ('#' :: (hex2 (py255 r) ++ hex2 (py255 g) ++ hex2 (py255 b))) = _
  simp only [hex2, List.cons_append, List.nil_append, collapseHex]
  by_cases hc : py255 r % 17 = 0 ∧ py255 g % 17 = 0 ∧ py255 b % 17 = 0
  · rw [if_pos ⟨(hexPair_eq_iff _ hRlt).mpr hc.1, (hexPair_eq_iff _ hGlt).mpr hc.2.1,
      (hexPair_eq_iff _ hBlt).mpr hc.2.2⟩, if_pos hc]
    rw [hexDiv_of_mul17 _ hRlt hc.1, hexDiv_of_mul17 _ hGlt hc.2.1,
      hexDiv_of_mul17 _ hBlt hc.2.2]
  · rw [if_neg (fun hcon => hc ⟨(hexPair_eq_iff _ hRlt).mp hcon.1,
      (hexPair_eq_iff _ hGlt).mp hcon.2.1, (hexPair_eq_iff _ hBlt).mp hcon.2.2⟩),
      if_neg hc]

/-- C5 witness: the amended theorem applied at `Format(1,0,0,1)`. -/
theorem C5_format_amended_witness :
    name 1 0 0 1 = nameSpec 1 0 0 :=
  C5_format_amended.1 1 0 0 1 (by decide) (by decide) (by decide) (by decide)
    (by decide) (by decide) (by decide)

/-! Theme-palette lookup (claim C8). -/

theorem pyGet_ofNat {α : Type} (l : List α) (k : ℕ) (hk : k < l.length) :
    pyGet l (Int.ofNat k) = .ok (l.get ⟨k, hk⟩) := by
  have h1 : ¬ ((k : ℤ) < 0) := by omega
  have h2 : ((k : ℤ)).toNat < l.length := by simpa using hk
  simp only [pyGet, Int.ofNat_eq_coe, if_neg h1,
    if_pos (by omega : (0 : ℤ) ≤ (k : ℤ)), dif_pos h2]
  simp

theorem pyGet_mem {α : Type} (l : List α) (i : ℤ)
    (h1 : -(l.length : ℤ) ≤ i) (h2 : i < l.length) :
    ∃ v, pyGet l i = .ok v ∧ v ∈ l := by
  simp only [pyGet]
  by_cases hneg : i < 0
  · rw [if_pos hneg, if_pos (by omega : (0 : ℤ) ≤ i + l.length),
      dif_pos (by omega : (i + l.length).toNat < l.length)]
    exact ⟨_, rfl, List.get_mem _ _ _⟩
  · rw [if_neg hneg, if_pos (by omega : (0 : ℤ) ≤ i),
      dif_pos (by omega : i.toNat < l.length)]
    exact ⟨_, rfl, List.get_mem _ _ _⟩

theorem pyGet_oob {α : Type} (l : List α) (i : ℤ)
    (h : i < -(l.length : ℤ) ∨ (l.length : ℤ) ≤ i) :
    pyGet l i = .error .indexError := by
  simp only [pyGet]
  by_cases hneg : i < 0
  · have hlow : i < -(l.length : ℤ) := by omega
    rw [if_pos hneg, if_neg (by omega : ¬ (0 : ℤ) ≤ i + l.length)]
  · rw [if_neg hneg, if_pos (by omega : (0 : ℤ) ≤ i),
      dif_neg (by omega : ¬ i.toNat < l.length)]

theorem adjustIdx_pos_bounds (n step v : ℤ) (hn : 0 ≤ n) (hstep : 0 < step) :
    0 ≤ adjustIdx n step v ∧ adjustIdx n step v ≤ n := by
  unfold adjustIdx
  split_ifs <;> omega

theorem adjustIdx_neg_bounds (n step v : ℤ) (hn : 0 ≤ n) (hstep : step < 0) :
    -1 ≤ adjustIdx n step v ∧ adjustIdx n step v ≤ n - 1 := by
  unfold adjustIdx
  split_ifs <;> omega

theorem sliceIdx_bounds (n : ℤ) (fuel : ℕ) : ∀ (cur stop step : ℤ),
    (0 < step → 0 ≤ cur ∧ stop ≤ n) →
    (step < 0 → cur ≤ n - 1 ∧ -1 ≤ stop) →
    ∀ i ∈ sliceIdx fuel cur stop step, 0 ≤ i ∧ i < n := by
  induction fuel with
  | zero =>
    intro cur stop step h1 h2 i hi
    simp [sliceIdx] at hi
  | succ fuel ih =>
    intro cur stop step h1 h2 i hi
    rw [sliceIdx] at hi
    split_ifs at hi with hcond
    · rcases List.mem_cons.mp hi with rfl | hrec
      · rcases hcond with ⟨hs, hc⟩ | ⟨hs, hc⟩
        · exact ⟨(h1 hs).1, lt_of_lt_of_le hc (h1 hs).2⟩
        · have ha := (h2 hs).1
          have hb := (h2 hs).2
          omega
      · refine ih (cur + step) stop step ?_ ?_ i hrec
        · intro hs
          have := h1 hs
          omega
        · intro hs
          have := h2 hs
          omega
    · simp at hi

theorem pySlice_mem {α : Type} (l : List α) (d : α) (start stop step : Option ℤ)
    (hstep : step ≠ some 0) :
    ∃ out, pySlice l d start stop step = .ok out ∧ ∀ v ∈ out, v ∈ l := by
  have hst : step.getD 1 ≠ 0 := by
    cases step with
    | none => simp
    | some v =>
      simp only [Option.getD_some]
      intro hv
      exact hstep (by rw [hv])
  simp only [pySlice]
  rw [if_neg hst]
  refine ⟨_, rfl, ?_⟩
  intro v hv
  rcases List.mem_map.mp hv with ⟨i, hi, rfl⟩
  have hn : (0 : ℤ) ≤ (l.length : ℤ) := by omega
  have hb : 0 ≤ i ∧ i < (l.length : ℤ) := by
    rcases lt_or_gt_of_ne hst with hneg | hpos
    · refine sliceIdx_bounds (l.length : ℤ) l.length _ _ _ ?_ ?_ i hi
      · intro hc
        omega
      · intro _
        constructor
        · exact (adjustIdx_neg_bounds _ _ _ hn hneg).2
        · cases stop with
          | none => simp [hneg, if_pos hneg]
          | some v2 => exact (adjustIdx_neg_bounds _ _ v2 hn hneg).1
    · refine sliceIdx_bounds (l.length : ℤ) l.length _ _ _ ?_ ?_ i hi
      · intro _
        constructor
        · exact (adjustIdx_pos_bounds _ _ _ hn hpos).1
        · cases stop with
          | none => simp [if_neg (by omega : ¬ step.getD 1 < 0)]
          | some v2 => exact (adjustIdx_pos_bounds _ _ v2 hn hpos).2
      · intro hc
        omega
  have hlt : i.toNat < l.length := by omega
  rw [List.getD_eq_getElem _ _ hlt]
  exact List.getElem_mem _


theorem msoLookup_lt (s : Str) (k : ℕ) (h : msoLookup.lookup s = some k) :
    k < 10 := by
  simp only [msoLookup, List.lookup] at h
  repeat' split at h
  all_goals simp_all
  all_goals omega

/-- C8 counterexample: looking up the out-of-range integer index 10 on the
10-entry `Office` theme raises `IndexError` instead of yielding the
absent/None result the claim requires. -/
theorem C8_mso_counterexample :
    Office.getitem (.idx 10) = .err .indexError ∧
    Office.getitem (.idx 10) ≠ .nothing := by
  exact ⟨by decide, by decide⟩

/-- C8 (amended): for every theme palette with at least the 10 named
slots, an unrecognized string name yields the absent/None result, but an
out-of-range integer index raises `IndexError` (tuple indexing is used
directly); recognized slot names map to the fixed positional indices
`accent_1..accent_6, light_2, dark_2, light_1, dark_1 = 0..9`, in-range
(possibly negative, Python-style) integer indices return stored colors,
and slices with nonzero step return lists of stored colors. -/
theorem C8_mso_lookup_amended (m : MSO) (hm : 10 ≤ m.values.length) :
    (∀ s : Str, msoLookup.lookup s = Option.none → m.getitem (.name s) = .nothing) ∧
    (∀ (s : Str) (k : ℕ), msoLookup.lookup s = some k →
      m.getitem (.name s) = .val (m.values.getD k [])) ∧
    (∀ i : ℤ, i < -(m.values.length : ℤ) ∨ (m.values.length : ℤ) ≤ i →
      m.getitem (.idx i) = .err .indexError) ∧
    (∀ i : ℤ, -(m.values.length : ℤ) ≤ i → i < (m.values.length : ℤ) →
      ∃ v, m.getitem (.idx i) = .val v ∧ v ∈ m.values) ∧
    (∀ start stop step : Option ℤ, step ≠ some 0 →
      ∃ out, m.getitem (.slc start stop step) = .vals out ∧ ∀ v ∈ out, v ∈ m.values) := by
  refine ⟨?_, ?_, ?_, ?_, ?_⟩
  · intro s hs
    simp only [MSO.getitem, hs]
  · intro s k hs
    have hk : k < m.values.length := lt_of_lt_of_le (msoLookup_lt s k hs) hm
    simp only [MSO.getitem, hs, pyGet_ofNat m.values k hk]
    rw [List.getD_eq_getElem _ _ hk]
    rfl
  · intro i hi
    simp only [MSO.getitem, pyGet_oob m.values i hi]
  · intro i h1 h2
    rcases pyGet_mem m.values i h1 h2 with ⟨v, hv, hmem⟩
    exact ⟨v, by simp only [MSO.getitem, hv], hmem⟩
  · intro start stop step hstep
    rcases pySlice_mem m.values [] start stop step hstep with ⟨out, hout, hmem⟩
    exact ⟨out, by simp only [MSO.getitem, hout], hmem⟩

/-- C8 witness: the amended theorem applied to the `Office` palette, read
at the slot name `accent_3`. -/
theorem C8_mso_lookup_amended_witness :
    Office.getitem (.name "accent_3".data) = .val (Office.values.getD 2 []) :=
  (C8_mso_lookup_amended Office (by decide)).2.1 "accent_3".data 2 (by decide)

/-! The interior interpolation branch of `gradient` (claim C1). -/

theorem findIdxAux {α : Type} (p : α → Bool) :
    ∀ (l : List α) (i : ℕ) (a : α) (s : ℕ),
      l[i]? = some a → p a = true →
      (∀ j, j < i → ∀ b, l[j]? = some b → p b = false) →
      l.findIdx? p s = some (s + i) := by
  intro l
  induction l with
  | nil =>
    intro i a s h _ _
    simp at h
  | cons x xs ih =>
    intro i a s hget hpa hlt
    cases i with
    | zero =>
      have hax : a = x := by simpa using hget.symm
      subst hax
      simp [List.findIdx?, hpa]
    | succ i2 =>
      have hx : p x = false := hlt 0 (Nat.succ_pos i2) x (by simp)
      have hrec := ih i2 a (s + 1) (by simpa using hget) hpa
        (fun j hj b hb => hlt (j + 1) (by omega) b (by simpa using hb))
      have hshift : s + 1 + i2 = s + (i2 + 1) := by omega
      simp only [List.findIdx?, hx]
      rw [hrec, hshift]
      simp

theorem findIdx?_eq_some {α : Type} (l : List α) (p : α → Bool) (i : ℕ) (a : α)
    (h1 : l[i]? = some a) (h2 : p a = true)
    (h3 : ∀ j, j < i → ∀ b, l[j]? = some b → p b = false) :
    l.findIdx? p = some i := by
  simpa using findIdxAux p l i a 0 h1 h2 h3

/-- C1: for a scalar strictly inside the sorted stop range, `gradient`
finds the first sorted stop at position ≥ x (index `i`, characterized by
its two defining properties), sets `p = (x - prev.position) /
(cur.position - prev.position)`, blends only the R, G and B channels of
the two parsed stop colors as `prev*(1-p) + cur*p`, and formats the blend
through `name` with its default opaque alpha. -/
theorem C1_gradient_interpolation (ranges : List (ℚ × Str)) (x : ℚ) (i : ℕ)
    (prev cur : ℚ × Str) (ca cb : Color)
    (hcur : (sortRanges ranges)[i]? = some cur)
    (hprev : (sortRanges ranges)[i - 1]? = some prev)
    (hpos : 0 < i)
    (hge : x ≤ cur.1)
    (hbefore : ∀ j, j < i → ∀ r, (sortRanges ranges)[j]? = some r → r.1 < x)
    (hlast : ∀ lst, (sortRanges ranges).getLast? = some lst → x < lst.1)
    (ha : rgba prev.2 = .ok ca) (hb : rgba cur.2 = .ok cb) :
    gradient (.num x) ranges =
      .ok (name
        (ca.1 * (1 - (x - prev.1) / (cur.1 - prev.1)) +
          cb.1 * ((x - prev.1) / (cur.1 - prev.1)))
        (ca.2.1 * (1 - (x - prev.1) / (cur.1 - prev.1)) +
          cb.2.1 * ((x - prev.1) / (cur.1 - prev.1)))
        (ca.2.2.1 * (1 - (x - prev.1) / (cur.1 - prev.1)) +
          cb.2.2.1 * ((x - prev.1) / (cur.1 - prev.1)))) := by
  cases hs : sortRanges ranges with
  | nil =>
    rw [hs] at hcur
    simp at hcur
  | cons f rest =>
    rw [hs] at hcur hprev hbefore hlast
    have hf : f.1 < x := hbefore 0 hpos f (by simp)
    have hlastD : x < ((f :: rest).getLastD f).1 := by
      refine hlast _ ?_
      rw [List.getLastD_eq_getLast?]
      cases hgl : (f :: rest).getLast? with
      | none => simp at hgl
      | some l2 => rfl
    have hprevlt : prev.1 < x := hbefore (i - 1) (by omega) prev hprev
    have hdenom : ¬ (cur.1 - prev.1 = 0) :=
      sub_ne_zero.mpr (ne_of_gt (lt_of_lt_of_le hprevlt hge))
    have hfi : (f :: rest).findIdx? (fun r => decide (x ≤ r.1)) = some i :=
      findIdx?_eq_some _ _ i cur hcur (decide_eq_true hge)
        (fun j hj b hbj => decide_eq_false (not_le.mpr (hbefore j hj b hbj)))
    rcases List.getElem?_eq_some.mp hcur with ⟨hilt, hieq⟩
    rcases List.getElem?_eq_some.mp hprev with ⟨hplt, hpeq⟩
    have hp1 : pyGet (f :: rest) (Int.ofNat i - 1) = .ok prev := by
      have hcast : Int.ofNat i - 1 = Int.ofNat (i - 1) := by
        simp only [Int.ofNat_eq_coe]
        omega
      rw [hcast, pyGet_ofNat _ _ hplt]
      simp [hpeq]
    have hp2 : pyGet (f :: rest) (Int.ofNat i) = .ok cur := by
      rw [pyGet_ofNat _ _ hilt]
      simp [hieq]
    simp only [gradient, FloatVal.toQ, hs, hfi, hp1, hp2, ha, hb,
      if_neg (not_le.mpr hf), if_neg (not_le.mpr hlastD), if_neg hdenom]

/-- C1 witness: the spec's end-to-end example, `Interpolate(0.25, Greens)`
landing halfway between the first two stops (fraction 0.5) and blending
`#F7FCF5` with `#74C476` into `#b5e0b5`. -/
theorem C1_gradient_interpolation_witness :
    gradient (.num (1 / 4))
        [(0, "#F7FCF5".data), (1 / 2, "#74C476".data), (1, "#00441B".data)] =
      .ok "#b5e0b5".data := by
  have h := C1_gradient_interpolation
    [(0, "#F7FCF5".data), (1 / 2, "#74C476".data), (1, "#00441B".data)]
    (1 / 4) 1 (0, "#F7FCF5".data) (1 / 2, "#74C476".data)
    (247 / 255, 252 / 255, 245 / 255, 1) (116 / 255, 196 / 255, 118 / 255, 1)
    (by decide) (by decide) (by decide) (by decide)
    (by
      intro j hj r hr
      interval_cases j
      rw [show (sortRanges [(0, "#F7FCF5".data), (1 / 2, "#74C476".data),
        (1, "#00441B".data)])[0]? = some ((0 : ℚ), "#F7FCF5".data) from by decide] at hr
      cases hr
      norm_num)
    (by
      intro lst hlst
      rw [show (sortRanges [(0, "#F7FCF5".data), (1 / 2, "#74C476".data),
        (1, "#00441B".data)]).getLast? = some ((1 : ℚ), "#00441B".data) from by decide] at hlst
      cases hlst
      norm_num)
    (by decide) (by decide)
  exact h.trans (by decide)

/-! Round-trip of `name` through `rgba` (claim C6). -/

set_option maxRecDepth 8000 in
theorem pyIntHex_hexPair (n : ℕ) (h : n < 256) :
    pyIntHex [hexChr (n / 16), hexChr (n % 16)] = some (n : ℤ) := by
  revert h
  revert n
  decide

set_option maxRecDepth 4000 in
theorem pyIntHex_hexSingle (n : ℕ) (h : n < 16) :
    pyIntHex [hexChr n] = some (n : ℤ) := by
  revert h
  revert n
  decide

set_option maxRecDepth 4000 in
theorem mul17_div16 (n : ℕ) (h : n < 256) (h17 : n % 17 = 0) :
    17 * (n / 16) = n := by
  revert h17
  revert h
  revert n
  decide

theorem rgbaResult_hash7 (c1 c2 c3 c4 c5 c6 : Char) :
    rgbaResult ['#', c1, c2, c3, c4, c5, c6] =
      match pyIntHex [c1, c2], pyIntHex [c3, c4], pyIntHex [c5, c6] with
      | some r, some g, some b => .ok [(r : ℚ) / 255, (g : ℚ) / 255, (b : ℚ) / 255]
      | _, _, _ => .error .valueError := rfl

theorem rgbaResult_hash4 (c1 c2 c3 : Char) :
    rgbaResult ['#', c1, c2, c3] =
      match pyIntHex [c1], pyIntHex [c2], pyIntHex [c3] with
      | some r, some g, some b => .ok [(r : ℚ) / 15, (g : ℚ) / 15, (b : ℚ) / 15]
      | _, _, _ => .error .valueError := rfl

theorem finalize_three (color : Str) (a b c : ℚ) :
    finalize color [a, b, c] = .ok (clamp01 a, clamp01 b, clamp01 c, clamp01 1) := rfl

/-- The channel value recovered from a byte `n < 256` written in hex:
`n/255`, on which the clamp is the identity. -/
theorem clamp_byte_div (n : ℕ) (h : n < 256) : clamp01 ((n : ℚ) / 255) = (n : ℚ) / 255 := by
  apply clamp01_eq_self
  · positivity
  · rw [div_le_one (by norm_num)]
    exact_mod_cast Nat.le_of_lt_succ h

/-- Parsing the string that `name` produces recovers exactly the truncated
bytes of each channel: `rgba(name(r,g,b,1)) = (R/255, G/255, B/255, 1)` with
`R = int(255*r)` and so on, in both the collapsed and the uncollapsed
case. -/
theorem rgba_name_eq (r g b : ℚ)
    (h0r : 0 ≤ r) (h1r : r ≤ 1) (h0g : 0 ≤ g) (h1g : g ≤ 1)
    (h0b : 0 ≤ b) (h1b : b ≤ 1) :
    rgba (name r g b 1) =
      .ok ((py255 r : ℚ) / 255, (py255 g : ℚ) / 255, (py255 b : ℚ) / 255, 1) := by
  have hR := py255_lt_256 h0r h1r
  have hG := py255_lt_256 h0g h1g
  have hB := py255_lt_256 h0b h1b
  have hname : name r g b 1 =
      collapseHex ('#' :: (hex2 (py255 r) ++ hex2 (py255 g) ++ hex2 (py255 b))) := by
    simp only [name, clamp01_eq_self h0r h1r, clamp01_eq_self h0g h1g,
      clamp01_eq_self h0b h1b, clamp01_of_one_le (le_refl (1 : ℚ)),
      if_pos (le_refl (1 : ℚ))]
  rw [hname]
  simp only [hex2, List.cons_append, List.nil_append, collapseHex]
  by_cases hc : hexChr (py255 r / 16) = hexChr (py255 r % 16) ∧
      hexChr (py255 g / 16) = hexChr (py255 g % 16) ∧
      hexChr (py255 b / 16) = hexChr (py255 b % 16)
  · rw [if_pos hc]
    have h17r := (hexPair_eq_iff _ hR).mp hc.1
    have h17g := (hexPair_eq_iff _ hG).mp hc.2.1
    have h17b := (hexPair_eq_iff _ hB).mp hc.2.2
    have hdr : py255 r / 16 < 16 := by omega
    have hdg : py255 g / 16 < 16 := by omega
    have hdb : py255 b / 16 < 16 := by omega
    unfold rgba
    rw [rgbaResult_hash4, pyIntHex_hexSingle _ hdr, pyIntHex_hexSingle _ hdg,
      pyIntHex_hexSingle _ hdb]
    show finalize _ _ = _
    rw [finalize_three]
    have hval : ∀ n : ℕ, n < 256 → n % 17 = 0 →
        clamp01 ((((n / 16 : ℕ) : ℤ) : ℚ) / 15) = (n : ℚ) / 255 := by
      intro n hn h17
      have hmul : ((17 : ℚ)) * ((n / 16 : ℕ) : ℚ) = (n : ℚ) := by
        exact_mod_cast congrArg (fun m : ℕ => (m : ℚ)) (mul17_div16 n hn h17)
      have hineq : ((n / 16 : ℕ) : ℚ) / 15 = (n : ℚ) / 255 := by
        rw [← hmul]
        ring
      rw [show (((n / 16 : ℕ) : ℤ) : ℚ) = ((n / 16 : ℕ) : ℚ) from Int.cast_natCast _, hineq]
      exact clamp_byte_div n hn
    rw [hval _ hR h17r, hval _ hG h17g, hval _ hB h17b,
      clamp01_of_one_le (le_refl (1 : ℚ))]
  · rw [if_neg hc]
    unfold rgba
    rw [rgbaResult_hash7, pyIntHex_hexPair _ hR, pyIntHex_hexPair _ hG,
      pyIntHex_hexPair _ hB]
    show finalize _ _ = _
    rw [finalize_three]
    simp only [Int.cast_natCast]
    rw [clamp_byte_div _ hR, clamp_byte_div _ hG, clamp_byte_div _ hB,
      clamp01_of_one_le (le_refl (1 : ℚ))]

/-- The 8-bit quantization error of one formatted channel. -/
theorem byte_quant_bound {r : ℚ} (h0 : 0 ≤ r) (_h1 : r ≤ 1) :
    |r - (py255 r : ℚ) / 255| ≤ 1 / 255 := by
  have hfl2 : ((py255 r : ℕ) : ℤ) = ⌊(255 : ℚ) * r⌋ := by
    unfold py255 truncInt
    rw [if_neg (not_lt.mpr (by positivity)), ratFloor_eq_floor]
    exact Int.toNat_of_nonneg (Int.floor_nonneg.mpr (by positivity))
  have hfl : ((py255 r : ℕ) : ℚ) = ((⌊(255 : ℚ) * r⌋ : ℤ) : ℚ) := by
    exact_mod_cast hfl2
  rw [hfl]
  have hle : ((⌊(255 : ℚ) * r⌋ : ℚ)) ≤ 255 * r := Int.floor_le _
  have hgt : 255 * r - 1 < ((⌊(255 : ℚ) * r⌋ : ℚ)) := by
    have := Int.lt_floor_add_one ((255 : ℚ) * r)
    linarith
  rw [abs_le]
  constructor
  · linarith
  · linarith

/-- C6: for channels in `[0,1]`, parsing the string produced by
`Format(r,g,b,1)` succeeds and recovers each channel to within the 8-bit
quantization error `1/255`, with alpha exactly 1 — including the inputs
whose output collapses to the 3-digit shorthand. -/
theorem C6_roundtrip (r g b : ℚ)
    (h0r : 0 ≤ r) (h1r : r ≤ 1) (h0g : 0 ≤ g) (h1g : g ≤ 1)
    (h0b : 0 ≤ b) (h1b : b ≤ 1) :
    ∃ r2 g2 b2 : ℚ, rgba (name r g b 1) = .ok (r2, g2, b2, 1) ∧
      |r - r2| ≤ 1 / 255 ∧ |g - g2| ≤ 1 / 255 ∧ |b - b2| ≤ 1 / 255 :=
  ⟨(py255 r : ℚ) / 255, (py255 g : ℚ) / 255, (py255 b : ℚ) / 255,
    rgba_name_eq r g b h0r h1r h0g h1g h0b h1b,
    byte_quant_bound h0r h1r, byte_quant_bound h0g h1g, byte_quant_bound h0b h1b⟩

/-- C6 witness: the round-trip theorem applied at `(1/3, 1, 0)` (whose
formatted string `#ff5500`… does not collapse) — the hypotheses hold and
the recovered tuple is within `1/255` per channel. -/
theorem C6_roundtrip_witness :
    ∃ r2 g2 b2 : ℚ, rgba (name (1 / 3) 1 0 1) = .ok (r2, g2, b2, 1) ∧
      |(1 / 3 : ℚ) - r2| ≤ 1 / 255 ∧ |(1 : ℚ) - g2| ≤ 1 / 255 ∧
      |(0 : ℚ) - b2| ≤ 1 / 255 :=
  C6_roundtrip (1 / 3) 1 0 (by norm_num) (by norm_num) (by norm_num)
    (by norm_num) (by norm_num) (by norm_num)

/-! The hsl()/hsla() grammar (claim C4). -/

/-- A numeric token that Python's `float()` accepts on the relevant
branch: for a `%`-suffixed token the part before the suffix must parse,
otherwise the token itself must. -/
def tokGood (t : Str) : Bool :=
  if t.getLast? = some '%' then (pyFloatNum t.dropLast).isSome
  else (pyFloatNum t).isSome

/-- The value the hsl branch assigns to token number `i`, as the amended
claim words it: a percent token is divided by 100 (this applies to the hue
token as well), a plain first token is degrees normalized by
`(value/360) mod 1`, and any other plain token is a literal float. -/
def hslSpecVal (i : ℕ) (t : Str) : ℚ :=
  if t.getLast? = some '%' then (pyFloatNum t.dropLast).getD 0 / 100
  else if i = 0 then pyMod1 ((pyFloatNum t).getD 0 / 360)
  else (pyFloatNum t).getD 0

/-- Spec-side hsl()/hsla() parse of a 3- or 4-token list, following the
amended claim: the first three token values are fed to the standard
HSV→RGB conversion (HSV, not HSL, semantics), the optional fourth is the
alpha, and every channel is clamped to `[0,1]`. -/
def hslSpec : List Str → Color
  | [t0, t1, t2] =>
    let (r, g, b) := hsv_to_rgb (hslSpecVal 0 t0) (hslSpecVal 1 t1) (hslSpecVal 2 t2)
    (clamp01 r, clamp01 g, clamp01 b, 1)
  | [t0, t1, t2, t3] =>
    let (r, g, b) := hsv_to_rgb (hslSpecVal 0 t0) (hslSpecVal 1 t1) (hslSpecVal 2 t2)
    (clamp01 r, clamp01 g, clamp01 b, clamp01 (hslSpecVal 3 t3))
  | _ => (0, 0, 0, 1)

theorem finalize_four (color : Str) (a b c d : ℚ) :
    finalize color [a, b, c, d] = .ok (clamp01 a, clamp01 b, clamp01 c, clamp01 d) := rfl

theorem hslTok_step (i : ℕ) (t : Str) (ht : tokGood t = true) :
    (if t.getLast? = some '%' then (pyFloatNum t.dropLast).map (· / 100)
     else if i = 0 then (pyFloatNum t).map (fun x => pyMod1 (x / 360))
     else pyFloatNum t) = some (hslSpecVal i t) := by
  unfold tokGood at ht
  unfold hslSpecVal
  by_cases hp : t.getLast? = some '%'
  · rw [if_pos hp] at ht ⊢
    rw [if_pos hp]
    rcases Option.isSome_iff_exists.mp ht with ⟨v, hv⟩
    rw [hv]
    simp
  · rw [if_neg hp] at ht ⊢
    rw [if_neg hp]
    rcases Option.isSome_iff_exists.mp ht with ⟨v, hv⟩
    by_cases hi : i = 0
    · rw [if_pos hi, if_pos hi, hv]
      simp
    · rw [if_neg hi, if_neg hi, hv]
      simp

/-- C4 counterexample: on `hsl(720%,100%,100%)` the code divides the
percent-suffixed hue token by 100 (the `%` rule is checked first), giving
hue 7.2 and the color `(0.8, 1, 0, 1)`; the claim's reading — hue always
`(value/360) mod 1`, here 0 — would give `(1, 0, 0, 1)` through the
standard HSV→RGB conversion. -/
theorem C4_hsl_counterexample :
    rgba "hsl(720%,100%,100%)".data = .ok (4 / 5, 1, 0, 1) ∧
    hsv_to_rgb (pyMod1 (720 / 360)) 1 1 = (1, 0, 0) ∧
    ((4 / 5 : ℚ), (1 : ℚ), (0 : ℚ), (1 : ℚ)) ≠ ((1 : ℚ), (0 : ℚ), (0 : ℚ), (1 : ℚ)) := by
  refine ⟨by decide, by decide, by decide⟩

/-- C4 (amended): for every hsl()/hsla() literal with exactly 3 or 4
well-formed numeric tokens, a percent-suffixed token — the hue token
included — is divided by 100, a plain first token is taken as hue degrees
normalized by `(value/360) mod 1`, the second and third values are used
as HSV saturation and value (not HSL saturation/lightness), the result
goes through the standard HSV→RGB conversion, and the clamped tuple is
returned. -/
theorem hslTokLoop_eval3 (t0 t1 t2 : Str)
    (h0 : tokGood t0 = true) (h1 : tokGood t1 = true) (h2 : tokGood t2 = true) :
    hslTokLoop 0 [t0, t1, t2] =
      .ok [hslSpecVal 0 t0, hslSpecVal 1 t1, hslSpecVal 2 t2] := by
  rw [hslTokLoop, hslTok_step 0 t0 h0]
  rw [hslTokLoop, hslTok_step 1 t1 h1]
  rw [hslTokLoop, hslTok_step 2 t2 h2]
  rfl

theorem hslTokLoop_eval4 (t0 t1 t2 t3 : Str)
    (h0 : tokGood t0 = true) (h1 : tokGood t1 = true) (h2 : tokGood t2 = true)
    (h3 : tokGood t3 = true) :
    hslTokLoop 0 [t0, t1, t2, t3] =
      .ok [hslSpecVal 0 t0, hslSpecVal 1 t1, hslSpecVal 2 t2, hslSpecVal 3 t3] := by
  rw [hslTokLoop, hslTok_step 0 t0 h0]
  rw [hslTokLoop, hslTok_step 1 t1 h1]
  rw [hslTokLoop, hslTok_step 2 t2 h2]
  rw [hslTokLoop, hslTok_step 3 t3 h3]
  rfl

theorem hslFix_eval3 (v0 v1 v2 x y z : ℚ) (h : hsv_to_rgb v0 v1 v2 = (x, y, z)) :
    hslFix (.ok [v0, v1, v2]) = .ok [x, y, z] := by
  simp only [hslFix]
  rw [h]

theorem hslFix_eval4 (v0 v1 v2 v3 x y z : ℚ) (h : hsv_to_rgb v0 v1 v2 = (x, y, z)) :
    hslFix (.ok [v0, v1, v2, v3]) = .ok [x, y, z, v3] := by
  simp only [hslFix]
  rw [h]

theorem rgba_hsl_eval3 (pre u : Str)
    (hpre : pre = "hsl(".data ∨ pre = "hsla(".data)
    (t0 t1 t2 : Str) (x y z : ℚ)
    (hts : findTokens (afterParen (pre ++ u)) = [t0, t1, t2])
    (h0 : tokGood t0 = true) (h1 : tokGood t1 = true) (h2 : tokGood t2 = true)
    (hrgb : hsv_to_rgb (hslSpecVal 0 t0) (hslSpecVal 1 t1) (hslSpecVal 2 t2) = (x, y, z)) :
    rgba (pre ++ u) = .ok (clamp01 x, clamp01 y, clamp01 z, 1) := by
  rcases hpre with rfl | rfl <;>
    (unfold rgba rgbaResult
     rw [if_neg (show ¬ _ from by intro h; simp at h),
       if_neg (show ¬ _ = true from by intro h; simp [List.isPrefixOf] at h),
       if_pos (show _ = true from by simp [List.isPrefixOf]),
       hts, hslTokLoop_eval3 t0 t1 t2 h0 h1 h2, hslFix_eval3 _ _ _ x y z hrgb]
     show finalize _ [x, y, z] = _
     rw [finalize_three, clamp01_of_one_le (le_refl (1 : ℚ))])

theorem rgba_hsl_eval4 (pre u : Str)
    (hpre : pre = "hsl(".data ∨ pre = "hsla(".data)
    (t0 t1 t2 t3 : Str) (x y z : ℚ)
    (hts : findTokens (afterParen (pre ++ u)) = [t0, t1, t2, t3])
    (h0 : tokGood t0 = true) (h1 : tokGood t1 = true) (h2 : tokGood t2 = true)
    (h3 : tokGood t3 = true)
    (hrgb : hsv_to_rgb (hslSpecVal 0 t0) (hslSpecVal 1 t1) (hslSpecVal 2 t2) = (x, y, z)) :
    rgba (pre ++ u) =
      .ok (clamp01 x, clamp01 y, clamp01 z, clamp01 (hslSpecVal 3 t3)) := by
  rcases hpre with rfl | rfl <;>
    (unfold rgba rgbaResult
     rw [if_neg (show ¬ _ from by intro h; simp at h),
       if_neg (show ¬ _ = true from by intro h; simp [List.isPrefixOf] at h),
       if_pos (show _ = true from by simp [List.isPrefixOf]),
       hts, hslTokLoop_eval4 t0 t1 t2 t3 h0 h1 h2 h3,
       hslFix_eval4 _ _ _ _ x y z hrgb]
     show finalize _ [x, y, z, hslSpecVal 3 t3] = _
     rw [finalize_four])

/-- C4 (amended): for every hsl()/hsla() literal with exactly 3 or 4
well-formed numeric tokens, a percent-suffixed token — the hue token
included — is divided by 100, a plain first token is taken as hue degrees
normalized by `(value/360) mod 1`, the second and third values are used
as HSV saturation and value (not HSL saturation/lightness), the triple
goes through the standard HSV→RGB conversion, and the clamped tuple
(alpha from the optional fourth token, else 1) is returned. -/
theorem C4_hsl_is_hsv (color : Str)
    (hp : List.isPrefixOf "hsl(".data color = true ∨
      List.isPrefixOf "hsla(".data color = true)
    (hgood : ∀ t ∈ findTokens (afterParen color), tokGood t = true)
    (hlen : (findTokens (afterParen color)).length = 3 ∨
      (findTokens (afterParen color)).length = 4) :
    rgba color = .ok (hslSpec (findTokens (afterParen color))) := by
  have hpre : ∃ pre u, (pre = "hsl(".data ∨ pre = "hsla(".data) ∧ color = pre ++ u := by
    rcases hp with hp | hp
    · exact ⟨"hsl(".data, _, Or.inl rfl,
        (List.prefix_iff_eq_append.mp (List.isPrefixOf_iff_prefix.mp hp)).symm⟩
    · exact ⟨"hsla(".data, _, Or.inr rfl,
        (List.prefix_iff_eq_append.mp (List.isPrefixOf_iff_prefix.mp hp)).symm⟩
  rcases hpre with ⟨pre, u, hpre, rfl⟩
  rcases hlen with hlen | hlen
  · rcases List.length_eq_three.mp hlen with ⟨t0, t1, t2, hts⟩
    rw [hts] at hgood ⊢
    have h0 := hgood t0 (by simp)
    have h1 := hgood t1 (by simp)
    have h2 := hgood t2 (by simp)
    rcases hrgb : hsv_to_rgb (hslSpecVal 0 t0) (hslSpecVal 1 t1) (hslSpecVal 2 t2)
      with ⟨x, y, z⟩
    rw [rgba_hsl_eval3 pre u hpre t0 t1 t2 x y z hts h0 h1 h2 hrgb]
    simp only [hslSpec, hrgb]
  · obtain ⟨t0, t1, t2, t3, hts⟩ :
        ∃ t0 t1 t2 t3, findTokens (afterParen (pre ++ u)) = [t0, t1, t2, t3] := by
      cases hl : findTokens (afterParen (pre ++ u)) with
      | nil => rw [hl] at hlen; simp at hlen
      | cons a l1 =>
        rw [hl] at hlen
        rcases List.length_eq_three.mp (by simpa using hlen) with ⟨b2, c2, d2, hrest⟩
        exact ⟨a, b2, c2, d2, by rw [hrest]⟩
    rw [hts] at hgood ⊢
    have h0 := hgood t0 (by simp)
    have h1 := hgood t1 (by simp)
    have h2 := hgood t2 (by simp)
    have h3 := hgood t3 (by simp)
    rcases hrgb : hsv_to_rgb (hslSpecVal 0 t0) (hslSpecVal 1 t1) (hslSpecVal 2 t2)
      with ⟨x, y, z⟩
    rw [rgba_hsl_eval4 pre u hpre t0 t1 t2 t3 x y z hts h0 h1 h2 h3 hrgb]
    simp only [hslSpec, hrgb]

/-- C4 witness: the spec's example `Parse("hsl(0,100%,50%)") = (0.5,0,0,1)`,
obtained by applying the amended theorem. -/
theorem C4_hsl_is_hsv_witness :
    rgba "hsl(0,100%,50%)".data = .ok (1 / 2, 0, 0, 1) := by
  have h := C4_hsl_is_hsv "hsl(0,100%,50%)".data (Or.inl (by decide))
    (by decide) (by decide)
  exact h.trans (by decide)

/-! Full classification of parse outcomes (claim C3). -/

/-- Forgets the parsed value, keeping only which error (if any) occurred. -/
def outcomeOf (r : Except PyErr Color) : Option PyErr :=
  match r with
  | .ok _ => Option.none
  | .error e => some e

/-- Spec-side parse-outcome classification, following the amended claim
C3: which inputs parse, and which error each failing input raises. -/
def specOutcome (color : Str) : Option PyErr :=
  if color.head? = some '#' then
    if color.length = 7 then
      if (pyIntHex ((color.drop 1).take 2)).isSome ∧
         (pyIntHex ((color.drop 3).take 2)).isSome ∧
         (pyIntHex ((color.drop 5).take 2)).isSome then Option.none
      else some .valueError
    else if color.length = 4 then
      if (pyIntHex ((color.drop 1).take 1)).isSome ∧
         (pyIntHex ((color.drop 2).take 1)).isSome ∧
         (pyIntHex ((color.drop 3).take 1)).isSome then Option.none
      else some .valueError
    else some (.invalidColor color)
  else if List.isPrefixOf "rgb(".data color || List.isPrefixOf "rgba(".data color then
    let ts := findTokens (afterParen color)
    if ts.all tokGood then
      if ts.length = 3 ∨ ts.length = 4 then Option.none
      else some (.invalidColor color)
    else some .valueError
  else if List.isPrefixOf "hsl(".data color || List.isPrefixOf "hsla(".data color then
    let ts := findTokens (afterParen color)
    if ts.all tokGood then
      if ts.length < 3 then some .indexError
      else if ts.length = 3 ∨ ts.length = 4 then Option.none
      else some (.invalidColor color)
    else some .valueError
  else if (colornames.lookup color).isSome then Option.none
  else some (.invalidColor color)

/-- The per-token value of the rgb loop succeeds exactly when the token is
well formed. -/
theorem isSome_false_eq_none {α : Type} (o : Option α) (h : o.isSome = false) :
    o = Option.none := by
  cases o
  · rfl
  · simp at h

theorem rgbTokVal_isSome (i : ℕ) (t : Str) :
    (if t.getLast? = some '%' then (pyFloatNum t.dropLast).map (· / 100)
     else if i < 3 then (pyFloatNum t).map (· / 255)
     else pyFloatNum t).isSome = tokGood t := by
  unfold tokGood
  by_cases hp : t.getLast? = some '%'
  · rw [if_pos hp, if_pos hp]
    cases pyFloatNum t.dropLast <;> rfl
  · rw [if_neg hp, if_neg hp]
    by_cases hi : i < 3
    · rw [if_pos hi]
      cases pyFloatNum t <;> rfl
    · rw [if_neg hi]

/-- The per-token value of the hsl loop succeeds exactly when the token is
well formed. -/
theorem hslTokVal_isSome (i : ℕ) (t : Str) :
    (if t.getLast? = some '%' then (pyFloatNum t.dropLast).map (· / 100)
     else if i = 0 then (pyFloatNum t).map (fun x => pyMod1 (x / 360))
     else pyFloatNum t).isSome = tokGood t := by
  unfold tokGood
  by_cases hp : t.getLast? = some '%'
  · rw [if_pos hp, if_pos hp]
    cases pyFloatNum t.dropLast <;> rfl
  · rw [if_neg hp, if_neg hp]
    by_cases hi : i = 0
    · rw [if_pos hi]
      cases pyFloatNum t <;> rfl
    · rw [if_neg hi]

theorem rgbTokLoop_ok (ts : List Str) : ∀ i, ts.all tokGood = true →
    ∃ l, rgbTokLoop i ts = .ok l ∧ l.length = ts.length := by
  induction ts with
  | nil =>
    intro i _
    exact ⟨[], rfl, rfl⟩
  | cons t ts ih =>
    intro i h
    rw [List.all_cons, Bool.and_eq_true] at h
    rcases ih (i + 1) h.2 with ⟨l, hl, hlen⟩
    have hv := rgbTokVal_isSome i t
    rw [h.1] at hv
    rcases Option.isSome_iff_exists.mp hv with ⟨v, hveq⟩
    refine ⟨v :: l, ?_, by simp [hlen]⟩
    rw [rgbTokLoop, hveq, hl]
    rfl

theorem rgbTokLoop_err (ts : List Str) : ∀ i, ts.all tokGood = false →
    rgbTokLoop i ts = .error .valueError := by
  induction ts with
  | nil =>
    intro i h
    simp at h
  | cons t ts ih =>
    intro i h
    by_cases ht : tokGood t = true
    · have hts : ts.all tokGood = false := by
        rw [List.all_cons, ht, Bool.true_and] at h
        exact h
      have hv := rgbTokVal_isSome i t
      rw [ht] at hv
      rcases Option.isSome_iff_exists.mp hv with ⟨v, hveq⟩
      rw [rgbTokLoop, hveq, ih (i + 1) hts]
      rfl
    · have ht2 : tokGood t = false := Bool.not_eq_true _ |>.mp ht
      have hv := rgbTokVal_isSome i t
      rw [ht2] at hv
      rw [rgbTokLoop, isSome_false_eq_none _ hv]

theorem hslTokLoop_ok (ts : List Str) : ∀ i, ts.all tokGood = true →
    ∃ l, hslTokLoop i ts = .ok l ∧ l.length = ts.length := by
  induction ts with
  | nil =>
    intro i _
    exact ⟨[], rfl, rfl⟩
  | cons t ts ih =>
    intro i h
    rw [List.all_cons, Bool.and_eq_true] at h
    rcases ih (i + 1) h.2 with ⟨l, hl, hlen⟩
    have hv := hslTokVal_isSome i t
    rw [h.1] at hv
    rcases Option.isSome_iff_exists.mp hv with ⟨v, hveq⟩
    refine ⟨v :: l, ?_, by simp [hlen]⟩
    rw [hslTokLoop, hveq, hl]
    rfl

theorem hslTokLoop_err (ts : List Str) : ∀ i, ts.all tokGood = false →
    hslTokLoop i ts = .error .valueError := by
  induction ts with
  | nil =>
    intro i h
    simp at h
  | cons t ts ih =>
    intro i h
    by_cases ht : tokGood t = true
    · have hts : ts.all tokGood = false := by
        rw [List.all_cons, ht, Bool.true_and] at h
        exact h
      have hv := hslTokVal_isSome i t
      rw [ht] at hv
      rcases Option.isSome_iff_exists.mp hv with ⟨v, hveq⟩
      rw [hslTokLoop, hveq, ih (i + 1) hts]
      rfl
    · have ht2 : tokGood t = false := Bool.not_eq_true _ |>.mp ht
      have hv := hslTokVal_isSome i t
      rw [ht2] at hv
      rw [hslTokLoop, isSome_false_eq_none _ hv]

theorem hslFix_big (l : List ℚ) (h : 3 ≤ l.length) :
    ∃ l2, hslFix (.ok l) = .ok l2 ∧ l2.length = l.length := by
  match l, h with
  | a :: b :: c :: rest, _ =>
    rcases hr : hsv_to_rgb a b c with ⟨x, y, z⟩
    refine ⟨x :: y :: z :: rest, ?_, by simp⟩
    simp only [hslFix]
    rw [hr]

theorem hslFix_small (l : List ℚ) (h : l.length < 3) :
    hslFix (.ok l) = .error .indexError := by
  match l, h with
  | [], _ => rfl
  | [a], _ => rfl
  | [a, b], _ => rfl

theorem finalize_out_ok (color : Str) (l : List ℚ)
    (h : l.length = 3 ∨ l.length = 4) : ∃ c, finalize color l = .ok c := by
  rcases h with h | h
  · rcases List.length_eq_three.mp h with ⟨a, b, c, rfl⟩
    exact ⟨_, rfl⟩
  · match l, h with
    | [a, b, c, d], _ => exact ⟨_, rfl⟩

theorem finalize_out_bad (color : Str) (l : List ℚ)
    (h : ¬ (l.length = 3 ∨ l.length = 4)) :
    finalize color l = .error (.invalidColor color) := by
  match l with
  | [] => rfl
  | [a] => rfl
  | [a, b] => rfl
  | [a, b, c] => exact absurd (Or.inl rfl) h
  | [a, b, c, d] => exact absurd (Or.inr rfl) h
  | a :: b :: c :: d :: e :: rest =>
    unfold finalize
    rw [if_neg (by simp : ¬ ((a :: b :: c :: d :: e :: rest : List ℚ).length = 3))]

theorem finalize_ok_bounds (color : Str) (l : List ℚ) (c : Color)
    (h : finalize color l = .ok c) :
    0 ≤ c.1 ∧ c.1 ≤ 1 ∧ 0 ≤ c.2.1 ∧ c.2.1 ≤ 1 ∧
    0 ≤ c.2.2.1 ∧ c.2.2.1 ≤ 1 ∧ 0 ≤ c.2.2.2 ∧ c.2.2.2 ≤ 1 := by
  unfold finalize at h
  split at h
  · injection h with h2
    subst h2
    exact ⟨clamp01_nonneg _, clamp01_le_one _, clamp01_nonneg _, clamp01_le_one _,
      clamp01_nonneg _, clamp01_le_one _, clamp01_nonneg _, clamp01_le_one _⟩
  · exact absurd h (by simp)

/-- C3 (amended): the outcome of `Parse` is fully classified: a bare-name
miss, a `#`-literal of the wrong length, and a well-tokenized functional
literal with a component count other than 3 or 4 fail with the module's
own InvalidColor error; a malformed hex field or numeric token raises a
plain conversion ValueError instead; an hsl()/hsla() literal with fewer
than 3 tokens raises IndexError before the count check is reached; every
other input parses, to a tuple with all four components clamped into
`[0,1]`. -/
theorem C3_parse_outcome (color : Str) :
    outcomeOf (rgba color) = specOutcome color ∧
    (∀ c, rgba color = .ok c →
      0 ≤ c.1 ∧ c.1 ≤ 1 ∧ 0 ≤ c.2.1 ∧ c.2.1 ≤ 1 ∧
      0 ≤ c.2.2.1 ∧ c.2.2.1 ≤ 1 ∧ 0 ≤ c.2.2.2 ∧ c.2.2.2 ≤ 1) := by
  constructor
  · unfold rgba specOutcome rgbaResult
    by_cases h1 : color.head? = some '#'
    · rw [if_pos h1, if_pos h1]
      by_cases h7 : color.length = 7
      · rw [if_pos h7, if_pos h7]
        cases hA : pyIntHex ((color.drop 1).take 2) with
        | none =>
          rw [if_neg (by simp)]
          rfl
        | some r =>
          cases hB : pyIntHex ((color.drop 3).take 2) with
          | none =>
            rw [if_neg (by simp)]
            rfl
          | some g =>
            cases hC : pyIntHex ((color.drop 5).take 2) with
            | none =>
              rw [if_neg (by simp)]
              rfl
            | some b =>
              rw [if_pos (by simp)]
              rfl
      · rw [if_neg h7, if_neg h7]
        by_cases h4 : color.length = 4
        · rw [if_pos h4, if_pos h4]
          cases hA : pyIntHex ((color.drop 1).take 1) with
          | none =>
            rw [if_neg (by simp)]
            rfl
          | some r =>
            cases hB : pyIntHex ((color.drop 2).take 1) with
            | none =>
              rw [if_neg (by simp)]
              rfl
            | some g =>
              cases hC : pyIntHex ((color.drop 3).take 1) with
              | none =>
                rw [if_neg (by simp)]
                rfl
              | some b =>
                rw [if_pos (by simp)]
                rfl
        · rw [if_neg h4, if_neg h4]
          rfl
    · rw [if_neg h1, if_neg h1]
      by_cases h2 : (List.isPrefixOf "rgb(".data color ||
          List.isPrefixOf "rgba(".data color) = true
      · rw [if_pos h2, if_pos h2]
        by_cases hall : (findTokens (afterParen color)).all tokGood = true
        · rcases rgbTokLoop_ok _ 0 hall with ⟨l, hl, hlen⟩
          rw [hl, if_pos hall]
          by_cases h34 : (findTokens (afterParen color)).length = 3 ∨
              (findTokens (afterParen color)).length = 4
          · rcases finalize_out_ok color l (by rw [hlen]; exact h34) with ⟨c, hc⟩
            show outcomeOf (finalize color l) = _
            rw [hc, if_pos h34]
            rfl
          · show outcomeOf (finalize color l) = _
            rw [finalize_out_bad color l (by rw [hlen]; exact h34), if_neg h34]
            rfl
        · rw [rgbTokLoop_err _ 0 (Bool.not_eq_true _ |>.mp hall), if_neg hall]
          rfl
      · rw [if_neg h2, if_neg h2]
        by_cases h3 : (List.isPrefixOf "hsl(".data color ||
            List.isPrefixOf "hsla(".data color) = true
        · rw [if_pos h3, if_pos h3]
          by_cases hall : (findTokens (afterParen color)).all tokGood = true
          · rcases hslTokLoop_ok _ 0 hall with ⟨l, hl, hlen⟩
            rw [hl, if_pos hall]
            by_cases hlt : (findTokens (afterParen color)).length < 3
            · rw [hslFix_small l (by rw [hlen]; exact hlt), if_pos hlt]
              rfl
            · rcases hslFix_big l (by rw [hlen]; omega) with ⟨l2, hfx, hlen2⟩
              rw [hfx, if_neg hlt]
              by_cases h34 : (findTokens (afterParen color)).length = 3 ∨
                  (findTokens (afterParen color)).length = 4
              · rcases finalize_out_ok color l2 (by rw [hlen2, hlen]; exact h34)
                  with ⟨c, hc⟩
                show outcomeOf (finalize color l2) = _
                rw [hc, if_pos h34]
                rfl
              · show outcomeOf (finalize color l2) = _
                rw [finalize_out_bad color l2 (by rw [hlen2, hlen]; exact h34),
                  if_neg h34]
                rfl
          · rw [hslTokLoop_err _ 0 (Bool.not_eq_true _ |>.mp hall), if_neg hall]
            rfl
        · rw [if_neg h3, if_neg h3]
          cases hlook : colornames.lookup color with
          | some v =>
            rcases v with ⟨r2, g2, b2⟩
            rw [if_pos (by simp)]
            rfl
          | none =>
            rw [if_neg (by simp)]
            rfl
  · intro c hc
    unfold rgba at hc
    split at hc
    · exact absurd hc (by simp)
    · exact finalize_ok_bounds color _ c hc

/-- C3 witness: the classification applied at the counterexample input
`hsl(0,0)` — the parse outcome is `IndexError` as specified. -/
theorem C3_parse_outcome_witness :
    outcomeOf (rgba "hsl(0,0)".data) = specOutcome "hsl(0,0)".data ∧
    specOutcome "hsl(0,0)".data = some .indexError :=
  ⟨(C3_parse_outcome "hsl(0,0)".data).1, by decide⟩

/-- C3 counterexample: an hsl literal with only two numeric tokens makes
the claim's parse-failure conditions hold (component count is 2), yet the
code raises `IndexError` when the hsv triple assignment reads `result[2]`
— not the InvalidColor error the claim requires — so "fails with the
InvalidColor error exactly when ..." is false. -/
theorem C3_parse_counterexample :
    rgba "hsl(0,0)".data = .error .indexError ∧
    rgba "hsl(0,0)".data ≠ .error (.invalidColor "hsl(0,0)".data) := by
  exact ⟨by decide, by decide⟩

end Rainfall
